import Mathlib

/-!
Verification of the request-composition-and-caching engine of the
gsheets-getter-functions repository (`RequestBuilder` / `RequestCache`).

The TypeScript source is embedded shallowly:
* step outputs are values of an arbitrary type `α`, with `Option α` standing
  for possibly-`undefined` JavaScript values;
* the browser environment (persistent `localStorage`, the network reached via
  `axios.get`, and a count of network operations) is an explicit `World` record
  threaded through every operation;
* `JSON.stringify` / `JSON.parse` are an explicit `Serializer` record, and the
  external `md5` package is an explicit `hash : String → String` argument of
  the `RequestCache` constructor;
* thrown exceptions are `Except Err` results.
-/

/-- A spreadsheet cell, mirroring `CellType = string | number`. -/
inductive Cell : Type where
  | str : String → Cell
  | num : Int → Cell
deriving DecidableEq

/-- The two-dimensional grid returned by the backend (`response.data.values`). -/
abbrev Grid : Type := List (List Cell)

/-- Mirrors `type Dimension = 'ROWS' | 'COLUMNS'`. -/
inductive Dimension : Type where
  | rows : Dimension
  | columns : Dimension
deriving DecidableEq

/-- The string interpolated for a `Dimension` in the request URL. -/
def Dimension.toUrl : Dimension → String
  | .rows => "ROWS"
  | .columns => "COLUMNS"

/-- Characters that JavaScript `encodeURIComponent` leaves unescaped. -/
def isUnreservedChar (c : Char) : Bool :=
  c.isAlpha || c.isDigit || c = '-' || c = '_' || c = '.' || c = '!' ||
    c = '~' || c = '*' || c.toNat = 39 || c = '(' || c = ')'

/-- Uppercase hexadecimal digit for a value below 16. -/
def hexDigit (n : Nat) : Char :=
  if n < 10 then Char.ofNat (48 + n) else Char.ofNat (55 + n)

/-- The UTF-8 byte sequence of a Unicode code point. -/
def utf8Bytes (n : Nat) : List Nat :=
  if n < 128 then [n]
  else if n < 2048 then [192 + n / 64, 128 + n % 64]
  else if n < 65536 then [224 + n / 4096, 128 + n / 64 % 64, 128 + n % 64]
  else [240 + n / 262144, 128 + n / 4096 % 64, 128 + n / 64 % 64, 128 + n % 64]

/-- Percent-escape of one byte. -/
def encByte (b : Nat) : List Char :=
  ['%', hexDigit (b / 16), hexDigit (b % 16)]

/-- `encodeURIComponent` acting on a single character. -/
def encChar (c : Char) : List Char :=
  if isUnreservedChar c then [c] else (utf8Bytes c.toNat).flatMap encByte

/-- JavaScript `encodeURIComponent`. -/
def encodeURIComponent (s : String) : String :=
  ⟨s.data.flatMap encChar⟩

/-- Value of an (uppercase) hexadecimal digit character. -/
def hexVal (c : Char) : Nat :=
  if c.toNat < 58 then c.toNat - 48 else c.toNat - 55

/-- One decoding step inverting `encChar`: reads the code point encoded at the
head of the character list and returns it with the unconsumed tail. -/
def decOne : List Char → Option (Nat × List Char)
  | [] => none
  | c :: rest =>
    if c = '%' then
      match rest with
      | h1 :: h2 :: rest1 =>
        if 16 * hexVal h1 + hexVal h2 < 128 then some (16 * hexVal h1 + hexVal h2, rest1)
        else if 16 * hexVal h1 + hexVal h2 < 224 then
          match rest1 with
          | _ :: h3 :: h4 :: rest2 =>
            some ((16 * hexVal h1 + hexVal h2 - 192) * 64 + (16 * hexVal h3 + hexVal h4 - 128),
              rest2)
          | _ => none
        else if 16 * hexVal h1 + hexVal h2 < 240 then
          match rest1 with
          | _ :: h3 :: h4 :: _ :: h5 :: h6 :: rest3 =>
            some ((16 * hexVal h1 + hexVal h2 - 224) * 4096 +
              (16 * hexVal h3 + hexVal h4 - 128) * 64 + (16 * hexVal h5 + hexVal h6 - 128), rest3)
          | _ => none
        else
          match rest1 with
          | _ :: h3 :: h4 :: _ :: h5 :: h6 :: _ :: h7 :: h8 :: rest4 =>
            some ((16 * hexVal h1 + hexVal h2 - 240) * 262144 +
              (16 * hexVal h3 + hexVal h4 - 128) * 4096 +
              (16 * hexVal h5 + hexVal h6 - 128) * 64 + (16 * hexVal h7 + hexVal h8 - 128), rest4)
          | _ => none
      | _ => none
    else some (c.toNat, rest)

/-- `JSON.stringify` / `JSON.parse` for the value type, as used by the cache.
`fromJson` returns `none` when `JSON.parse` would throw. -/
structure Serializer (α : Type) where
  toJson : α → String
  fromJson : String → Option α

/-- The ambient mutable environment: the `localStorage` key-value store, the
backend reachable through `axios.get` (mapping a URL to a response grid or a
network error), and a counter of network operations performed. -/
structure World : Type where
  store : String → Option String
  net : String → Except String Grid
  netOps : Nat

/-- Exceptions thrown by the engine. -/
inductive Err : Type where
  | parserNotSpecified : Err
  | parserFailed : String → Err
  | notSavedInCache : Err
  | jsonParse : Err
  | network : String → Err
deriving DecidableEq

/-- The `RequestCache` class: a single cacheable fetch descriptor.  `parser`
may throw, hence `Except String α`. -/
structure RequestCache (α : Type) where
  url : String
  requestKey : String
  parser : Option (Grid → Except String α)

/-- `RequestCache.build`: constructs the request URL from the resolved
parameters, exactly as the template string in the source. -/
def RequestCache.build (apiKey sheetId range : String) (dimension : Dimension)
    (isFormatted : Bool) : String :=
  "https://sheets.googleapis.com/v4/spreadsheets/" ++ sheetId ++ "/values/" ++
    encodeURIComponent range ++ "?majorDimension=" ++ dimension.toUrl ++
    "&valueRenderOption=" ++ (if isFormatted then "FORMATTED_VALUE" else "UNFORMATTED_VALUE") ++
    "&key=" ++ apiKey

/-- The `RequestCache` constructor: builds the URL and hashes it into the
cache key.  The external `md5` function is passed in as `hash`. -/
def mkRequestCache (α : Type) (hash : String → String) (apiKey sheetId range : String)
    (dimension : Dimension) (isFormatted : Bool) : RequestCache α :=
  ⟨RequestCache.build apiKey sheetId range dimension isFormatted,
    hash (RequestCache.build apiKey sheetId range dimension isFormatted), none⟩

/-- `setParser`: attaches the response-shaping function. -/
def RequestCache.setParser {α : Type} (rc : RequestCache α)
    (p : Grid → Except String α) : RequestCache α :=
  ⟨rc.url, rc.requestKey, some p⟩

/-- `parse`: throws `parser not specified` when no parser is attached,
otherwise applies the parser (whose own exceptions propagate). -/
def RequestCache.parse {α : Type} (rc : RequestCache α) (response : Grid) :
    Except Err α :=
  match rc.parser with
  | none => .error .parserNotSpecified
  | some p =>
    match p response with
    | .error m => .error (.parserFailed m)
    | .ok v => .ok v

/-- `saveCache`: `localStorage.setItem(this.requestKey, JSON.stringify(value))`. -/
def RequestCache.saveCache {α : Type} (rc : RequestCache α) (J : Serializer α)
    (v : α) (w : World) : World :=
  World.mk (fun k => if k = rc.requestKey then some (J.toJson v) else w.store k) w.net w.netOps

/-- `cache()`: reads `localStorage`; throws `not saved in cache` when the entry
is absent (or the empty, hence falsy, string), and models a throwing
`JSON.parse` by `fromJson` returning `none`. -/
def RequestCache.cache {α : Type} (rc : RequestCache α) (J : Serializer α)
    (w : World) : Except Err α :=
  match w.store rc.requestKey with
  | none => .error .notSavedInCache
  | some s =>
    if s = "" then .error .notSavedInCache
    else
      match J.fromJson s with
      | none => .error .jsonParse
      | some v => .ok v

/-- `live()`: always performs the network request (counted in `netOps`), then
parses and, only on success, persists the parsed value under the key. -/
def RequestCache.live {α : Type} (rc : RequestCache α) (J : Serializer α)
    (w : World) : Except Err α × World :=
  let w1 := World.mk w.store w.net (w.netOps + 1)
  match w.net rc.url with
  | .error e => (.error (.network e), w1)
  | .ok grid =>
    match rc.parse grid with
    | .error e => (.error e, w1)
    | .ok v => (.ok v, rc.saveCache J v w1)

/-- `get()`: `try { return this.cache() } catch { return this.live() }`. -/
def RequestCache.get {α : Type} (rc : RequestCache α) (J : Serializer α)
    (w : World) : Except Err α × World :=
  match rc.cache J w with
  | .ok v => (.ok v, w)
  | .error _ => rc.live J w

mutual
/-- The value returned by one step function: a `RequestCache`, a nested
`RequestBuilder`, or a plain value (with `Option` for `undefined`). -/
inductive StepRes (α : Type) : Type where
  | plain : Option α → StepRes α
  | fetch : RequestCache α → StepRes α
  | nested : RequestBuilder α → StepRes α

/-- The `RequestBuilder` class: credentials, the declared steps, and the
`alwaysCache` flag (field initializer `alwaysCache = false`). -/
inductive RequestBuilder (α : Type) : Type where
  | mk : (apiKey : String) → (sheetId : String) → (items : Items α) →
      (alwaysCache : Bool) → RequestBuilder α

/-- The list of declared step functions; each receives the ordered list of all
prior step outputs. -/
inductive Items (α : Type) : Type where
  | nil : Items α
  | cons : (List (Option α) → StepRes α) → Items α → Items α
end

/-- The `apiKey` field of a `RequestBuilder`. -/
def RequestBuilder.apiKey {α : Type} : RequestBuilder α → String
  | .mk k _ _ _ => k

/-- The `sheetId` field of a `RequestBuilder`. -/
def RequestBuilder.sheetId {α : Type} : RequestBuilder α → String
  | .mk _ s _ _ => s

/-- The `items` field of a `RequestBuilder`. -/
def RequestBuilder.items {α : Type} : RequestBuilder α → Items α
  | .mk _ _ i _ => i

/-- The `alwaysCache` field of a `RequestBuilder`. -/
def RequestBuilder.alwaysCache {α : Type} : RequestBuilder α → Bool
  | .mk _ _ _ ac => ac

/-- Concatenation of step lists (the array spread in `add`). -/
def Items.append {α : Type} : Items α → Items α → Items α
  | .nil, ys => ys
  | .cons f rest, ys => .cons f (rest.append ys)

/-- The step list as a Lean `List`. -/
def Items.toList {α : Type} : Items α → List (List (Option α) → StepRes α)
  | .nil => []
  | .cons f rest => f :: rest.toList

/-- The `RequestBuilder` constructor: empty step list, `alwaysCache = false`. -/
def RequestBuilder.new (α : Type) (apiKey sheetId : String) : RequestBuilder α :=
  .mk apiKey sheetId .nil false

/-- `add`: returns a fresh `RequestBuilder` (hence `alwaysCache` is the field
initializer `false`) sharing the credentials, with `items` set to the spread
`[...this.items, request]`. -/
def RequestBuilder.add {α : Type} (rb : RequestBuilder α)
    (request : List (Option α) → StepRes α) : RequestBuilder α :=
  .mk rb.apiKey rb.sheetId (rb.items.append (.cons request .nil)) false

mutual
/-- `run(allowCache)`: executes all steps in order and returns
`values[values.length - 1]` (`none`, i.e. `undefined`, for an empty list). -/
def RequestBuilder.run {α : Type} : RequestBuilder α → Bool → Serializer α →
    World → Except Err (Option α) × World
  | .mk _ _ items _, allowCache, J, w =>
    match runItems items allowCache J [] w with
    | (.ok values, w1) => (.ok (values.getLastD none), w1)
    | (.error e, w1) => (.error e, w1)

/-- The loop body of `run`: processes the declared steps in order, threading
the accumulated `values` array and the world. -/
def runItems {α : Type} : Items α → Bool → Serializer α → List (Option α) →
    World → Except Err (List (Option α)) × World
  | .nil, _, _, values, w => (.ok values, w)
  | .cons f rest, allowCache, J, values, w =>
    match resolveOne (f values) allowCache J w with
    | (.ok v, w1) => runItems rest allowCache J (values ++ [v]) w1
    | (.error e, w1) => (.error e, w1)

/-- Resolution of a single step result: `RequestCache` values go through
`get`/`live` according to `allowCache`, nested builders are run recursively
with `allowCache || value.alwaysCache`, and plain values pass through. -/
def resolveOne {α : Type} : StepRes α → Bool → Serializer α → World →
    Except Err (Option α) × World
  | .plain v, _, _, w => (.ok v, w)
  | .fetch rc, allowCache, J, w =>
    match (if allowCache then rc.get J w else rc.live J w) with
    | (.ok v, w1) => (.ok (some v), w1)
    | (.error e, w1) => (.error e, w1)
  | .nested rb, allowCache, J, w => rb.run (allowCache || rb.alwaysCache) J w
end

/-- A serialized cache entry that `cache()` will accept: non-empty (hence
truthy) and deserializable. -/
def GoodStr {α : Type} (J : Serializer α) (s : String) : Prop :=
  s ≠ "" ∧ (J.fromJson s).isSome

/-- `w'` retains every acceptable cache entry of `w` unchanged. -/
def StorePres {α : Type} (J : Serializer α) (w w' : World) : Prop :=
  ∀ k s, w.store k = some s → GoodStr J s → w'.store k = some s

/-- Default step used only as the `List.getD` fallback in theorem statements. -/
def defStep (α : Type) : List (Option α) → StepRes α :=
  fun _ => .plain none

/-- Default world used only as the `List.getD` fallback in theorem
statements. -/
def emptyWorld : World :=
  World.mk (fun _ => none) (fun _ => .error "") 0

/-- Decimal digit accumulator used by the `natJson` fixture. -/
def decDigits : List Char → Nat → Option Nat
  | [], acc => some acc
  | c :: rest, acc =>
    if c.isDigit then decDigits rest (acc * 10 + (c.toNat - 48)) else none

/-- Fixture: a `JSON.stringify`/`JSON.parse` pair for natural numbers. -/
def natJson : Serializer Nat :=
  ⟨fun n => toString n,
    fun s => match s.data with | [] => none | c :: rest => decDigits (c :: rest) 0⟩

/-- Fixture: a `JSON.stringify`/`JSON.parse` pair for booleans; its round-trip
law is provable by computation. -/
def boolJson : Serializer Bool :=
  ⟨fun b => if b then "true" else "false",
    fun s => if s = "true" then some true else if s = "false" then some false else none⟩

/-- Fixture: a fetch descriptor with no parser attached. -/
def rcNoParser : RequestCache Nat :=
  ⟨"u", "k", none⟩

/-- Fixture: a fetch descriptor whose parser always returns `5`. -/
def rcParser5 : RequestCache Nat :=
  ⟨"u", "k", some (fun _ => .ok 5)⟩

/-- Fixture: a fetch descriptor whose parser always returns `1`. -/
def rcParser1 : RequestCache Nat :=
  ⟨"u", "k", some (fun _ => .ok 1)⟩

/-- Fixture: a fetch descriptor (over `Bool`) whose parser returns `true`. -/
def rcBool : RequestCache Bool :=
  ⟨"u", "k", some (fun _ => .ok true)⟩

/-- Fixture: world with a cached entry `"7"` under key `"k"` and no network. -/
def wHit : World :=
  World.mk (fun k => if k = "k" then some "7" else none) (fun _ => .error "offline") 0

/-- Fixture: world with an empty cache and a network that answers every URL
with the empty grid. -/
def wNetOk : World :=
  World.mk (fun _ => none) (fun _ => .ok []) 0

/-- Fixture: world with a cached entry `"9"` under key `"k"` and a working
network. -/
def wCached9 : World :=
  World.mk (fun k => if k = "k" then some "9" else none) (fun _ => .ok []) 0

/-- Fixture: world with an empty cache and no network. -/
def wPure : World :=
  World.mk (fun _ => none) (fun _ => .error "offline") 0

/-- Fixture: the world `wNetOk` after one live fetch of `rcBool` stored
`"true"` under `"k"`. -/
def wBoolAfter : World :=
  World.mk (fun k => if k = "k" then some "true" else none) (fun _ => .ok []) 1

/-- Fixture: a two-step pure pipeline; step 0 returns `1`, step 1 returns the
output of step 0 plus `2`. -/
def rbPure : RequestBuilder Nat :=
  .mk "a" "b"
    (.cons (fun _ => .plain (some 1))
      (.cons (fun vs => .plain (some ((vs.getD 0 none).getD 0 + 2))) .nil)) false

/-- Fixture: a single-fetch pipeline over `Bool`. -/
def rbBoolFetch : RequestBuilder Bool :=
  .mk "a" "b" (.cons (fun _ => .fetch rcBool) .nil) false

/-- Fixture: a single-fetch pipeline with `alwaysCache = true` whose fetch has
a cache entry in `wCached9`. -/
def rbInner : RequestBuilder Nat :=
  .mk "a" "b" (.cons (fun _ => .fetch rcParser1) .nil) true

/-- Fixture: an outer pipeline whose only step returns the nested pipeline
`rbInner`. -/
def rbOuter : RequestBuilder Nat :=
  .mk "a" "b" (.cons (fun _ => .nested rbInner) .nil) false

theorem sanity_run_nil {α : Type} (J : Serializer α) (w : World) :
    (RequestBuilder.new α "k" "s").run true J w = (.ok none, w) := by
  simp [RequestBuilder.new, RequestBuilder.run, runItems]

theorem Items.toList_append {α : Type} (xs ys : Items α) :
    (xs.append ys).toList = xs.toList ++ ys.toList := by
  match xs with
  | .nil => simp [Items.append, Items.toList]
  | .cons f rest =>
    have ih := Items.toList_append rest ys
    simp [Items.append, Items.toList, ih]

/-- C7: for every pipeline, `add(step)` returns a new pipeline value whose
step list is the original list with `step` appended (a fresh array built by
spreading the old one), while the original pipeline's step list is untouched:
the result is a distinct value, the receiver `rb` still has its own `items`,
and the credentials are carried over unchanged. -/
theorem c7_add_appends_without_mutation {α : Type} (rb : RequestBuilder α)
    (request : List (Option α) → StepRes α) :
    (rb.add request).items.toList = rb.items.toList ++ [request] ∧
    rb.add request ≠ rb ∧
    (rb.add request).apiKey = rb.apiKey ∧ (rb.add request).sheetId = rb.sheetId := by
  refine ⟨?_, ?_, ?_, ?_⟩
  · cases rb with
    | mk k s items ac =>
      simp [RequestBuilder.add, RequestBuilder.items, Items.toList_append, Items.toList]
  · intro h
    have h2 := congrArg (fun b : RequestBuilder α => b.items.toList.length) h
    cases rb with
    | mk k s items ac =>
      simp [RequestBuilder.add, RequestBuilder.items, Items.toList_append, Items.toList] at h2
  · cases rb with
    | mk k s items ac => rfl
  · cases rb with
    | mk k s items ac => rfl

/-- C10: the pipeline returned by `add` always has `alwaysCache = false`,
even when the receiver's flag was `true`: `add` constructs a fresh
`RequestBuilder` (whose field initializer sets the flag to `false`) and copies
only the credentials and the step list. -/
theorem c10_add_resets_always_cache {α : Type} (rb : RequestBuilder α)
    (request : List (Option α) → StepRes α) :
    (rb.add request).alwaysCache = false ∧
    (rb.add request).items.toList = rb.items.toList ++ [request] := by
  constructor
  · cases rb with
    | mk k s items ac => rfl
  · cases rb with
    | mk k s items ac =>
      simp [RequestBuilder.add, RequestBuilder.items, Items.toList_append, Items.toList]

/-- C9: when `live()` fails — because the network request throws or parsing
throws (no parser, or the parser itself raising) — the store is left exactly
as it was: the cache write happens only after a successful fetch and parse. -/
theorem c9_failed_live_preserves_store {α : Type} (rc : RequestCache α)
    (J : Serializer α) (w : World) (e : Err)
    (hfail : (rc.live J w).1 = .error e) :
    (rc.live J w).2.store = w.store := by
  unfold RequestCache.live at hfail ⊢
  cases hn : w.net rc.url with
  | error msg => simp [hn]
  | ok grid =>
    cases hp : rc.parse grid with
    | error pe => simp [hn, hp]
    | ok v => simp [hn, hp] at hfail

theorem c9_witness :
    (rcNoParser.live natJson wNetOk).1 = .error .parserNotSpecified ∧
    (rcNoParser.live natJson wNetOk).2.store = wNetOk.store :=
  ⟨rfl, c9_failed_live_preserves_store rcNoParser natJson wNetOk .parserNotSpecified rfl⟩

/-- C6: for a fetch with a parser attached, `get()` returns the stored value
for its exact cache key directly (same world: no network call, no write, no
re-parse) whenever an entry is present and deserializes; and when the cache
read fails for any reason (missing entry, falsy entry, `JSON.parse` throwing)
it behaves exactly like `live()`. -/
theorem c6_get_hit_or_live_fallback {α : Type} (rc : RequestCache α)
    (J : Serializer α) (p : Grid → Except String α)
    (_hp : rc.parser = some p) :
    (∀ w s v, w.store rc.requestKey = some s → s ≠ "" → J.fromJson s = some v →
      rc.get J w = (.ok v, w)) ∧
    (∀ w e, rc.cache J w = .error e → rc.get J w = rc.live J w) := by
  constructor
  · intro w s v hs hne hv
    simp [RequestCache.get, RequestCache.cache, hs, hne, hv]
  · intro w e hc
    simp [RequestCache.get, hc]

theorem c6_witness :
    rcParser5.get natJson wHit = (.ok 7, wHit) ∧
    rcParser5.get natJson wNetOk = rcParser5.live natJson wNetOk :=
  ⟨(c6_get_hit_or_live_fallback rcParser5 natJson (fun _ => .ok 5) rfl).1 wHit "7" 7 rfl
      (by decide) rfl,
    (c6_get_hit_or_live_fallback rcParser5 natJson (fun _ => .ok 5) rfl).2 wNetOk
      .notSavedInCache rfl⟩

theorem c3_counterexample :
    rcNoParser.parser = none ∧ rcNoParser.get natJson wHit = (.ok 7, wHit) :=
  ⟨rfl, rfl⟩

/-- C3 (amended): with no parser attached, `live()` never succeeds — it fails
with the network error when the request fails and with the
`parser not specified` configuration error otherwise — and `get()` fails the
same way whenever the cache read misses or fails to deserialize; but when a
valid cache entry exists under the key, `get()` succeeds and returns the
stored value without ever consulting a parser. -/
theorem c3_no_parser_resolution {α : Type} (rc : RequestCache α)
    (J : Serializer α) (hp : rc.parser = none) :
    (∀ (w : World) (v : α), (rc.live J w).1 ≠ .ok v) ∧
    (∀ (w : World) (grid : Grid), w.net rc.url = .ok grid →
      (rc.live J w).1 = .error .parserNotSpecified) ∧
    (∀ (w : World) (e : Err), rc.cache J w = .error e →
      (rc.get J w).1 = (rc.live J w).1) ∧
    (∀ (w : World) (s : String) (v : α), w.store rc.requestKey = some s →
      s ≠ "" → J.fromJson s = some v → rc.get J w = (.ok v, w)) := by
  refine ⟨?_, ?_, ?_, ?_⟩
  · intro w v
    unfold RequestCache.live
    cases hn : w.net rc.url with
    | error msg => simp [hn]
    | ok grid => simp [hn, RequestCache.parse, hp]
  · intro w grid hn
    simp [RequestCache.live, hn, RequestCache.parse, hp]
  · intro w e hc
    simp [RequestCache.get, hc]
  · intro w s v hs hne hv
    simp [RequestCache.get, RequestCache.cache, hs, hne, hv]

theorem c3_witness :
    ((rcNoParser.live natJson wNetOk).1 = .error .parserNotSpecified) ∧
    ((rcNoParser.get natJson wNetOk).1 = (rcNoParser.live natJson wNetOk).1) ∧
    rcNoParser.get natJson wHit = (.ok 7, wHit) :=
  ⟨(c3_no_parser_resolution rcNoParser natJson rfl).2.1 wNetOk [] rfl,
    (c3_no_parser_resolution rcNoParser natJson rfl).2.2.1 wNetOk .notSavedInCache rfl,
    (c3_no_parser_resolution rcNoParser natJson rfl).2.2.2 wHit "7" 7 rfl (by decide) rfl⟩

theorem c4_counterexample :
    rbInner.alwaysCache = true ∧
    rcParser1.cache natJson wCached9 = .ok 9 ∧
    (rbInner.run false natJson wCached9).1 = .ok (some 1) ∧
    (rbInner.run false natJson wCached9).2.netOps = 1 :=
  ⟨rfl, rfl, rfl, rfl⟩

/-- C4 (amended): a direct `run(allowCache)` call on a pipeline ignores that
pipeline's own `alwaysCache` flag entirely (the run result does not depend on
the flag), and with `allowCache = false` every `RequestCache` step is resolved
by `live()` — network request plus cache overwrite — even when a cache entry
exists; the flag influences resolution only when the pipeline appears as a
nested step of an outer run. -/
theorem c4_direct_run_ignores_flag {α : Type} :
    (∀ (k sh : String) (items : Items α) (ac1 ac2 allowCache : Bool)
        (J : Serializer α) (w : World),
      (RequestBuilder.mk k sh items ac1).run allowCache J w =
        (RequestBuilder.mk k sh items ac2).run allowCache J w) ∧
    (∀ (k sh : String) (ac : Bool) (rc : RequestCache α) (J : Serializer α)
        (w : World) (p : Grid → Except String α) (grid : Grid) (pv : α),
      rc.parser = some p → w.net rc.url = .ok grid → p grid = .ok pv →
      (RequestBuilder.mk k sh (.cons (fun _ => .fetch rc) .nil) ac).run false J w =
        (.ok (some pv), rc.saveCache J pv (World.mk w.store w.net (w.netOps + 1)))) := by
  constructor
  · intro k sh items ac1 ac2 allowCache J w
    rfl
  · intro k sh ac rc J w p grid pv hp hn hpg
    simp [RequestBuilder.run, runItems, resolveOne, RequestCache.live, RequestCache.parse,
      hp, hn, hpg]

theorem c4_witness :
    ((RequestBuilder.mk "a" "b" (Items.nil : Items Nat) true).run false natJson wNetOk =
      (RequestBuilder.mk "a" "b" (Items.nil : Items Nat) false).run false natJson wNetOk) ∧
    rbInner.run false natJson wCached9 =
      (.ok (some 1),
        rcParser1.saveCache natJson 1 (World.mk wCached9.store wCached9.net (wCached9.netOps + 1))) :=
  ⟨c4_direct_run_ignores_flag.1 "a" "b" Items.nil true false false natJson wNetOk,
    c4_direct_run_ignores_flag.2 "a" "b" true rcParser1 natJson wCached9
      (fun _ => .ok 1) [] 1 rfl rfl rfl⟩

theorem runItemsShape {α : Type} (items : Items α) (allowCache : Bool) (J : Serializer α) :
    ∀ (values : List (Option α)) (w : World) (res : List (Option α)) (w' : World),
      runItems items allowCache J values w = (.ok res, w') →
      ∃ (outs : List (Option α)) (ws : List World), res = values ++ outs ∧
        outs.length = items.toList.length ∧
        ws.length = outs.length + 1 ∧
        ws.getD 0 emptyWorld = w ∧
        ws.getD outs.length emptyWorld = w' ∧
        ∀ i, i < outs.length →
          resolveOne ((items.toList.getD i (defStep α)) (values ++ outs.take i)) allowCache J
              (ws.getD i emptyWorld) =
            (.ok (outs.getD i none), ws.getD (i + 1) emptyWorld) := by
  match items with
  | .nil =>
    intro values w res w' h
    simp only [runItems] at h
    obtain ⟨h1, h2⟩ := Prod.mk.injEq .. ▸ h
    refine ⟨[], [w], ?_, ?_, ?_, ?_, ?_, ?_⟩
    · simpa using (Except.ok.injEq .. ▸ h1).symm
    · simp [Items.toList]
    · simp
    · simp
    · simpa [List.getD] using h2
    · intro i hi
      simp at hi
  | .cons f rest =>
    intro values w res w' h
    simp only [runItems] at h
    rcases hr0 : resolveOne (f values) allowCache J w with ⟨r0, w1⟩
    rw [hr0] at h
    cases r0 with
    | error e => simp at h
    | ok v =>
      simp only at h
      obtain ⟨outs, ws, hres, hlen, hwslen, hws0, hwsl, hidx⟩ :=
        runItemsShape rest allowCache J (values ++ [v]) w1 res w' h
      refine ⟨v :: outs, w :: ws, ?_, ?_, ?_, ?_, ?_, ?_⟩
      · simpa [List.append_assoc] using hres
      · simp [Items.toList, hlen]
      · simp [hwslen]
      · simp
      · simpa [List.getD_cons_succ] using hwsl
      · intro i hi
        cases i with
        | zero =>
          simp only [Items.toList, List.getD_cons_zero, List.getD_cons_succ, List.take_zero,
            List.append_nil]
          rw [hws0]
          exact hr0
        | succ j =>
          have hj : j < outs.length := Nat.lt_of_succ_lt_succ (by simpa using hi)
          have h2 := hidx j hj
          simp only [Items.toList, List.getD_cons_succ, List.take_succ_cons]
          rw [show values ++ (v :: outs.take j) = (values ++ [v]) ++ outs.take j by simp]
          exact h2

/-- C1: for every pipeline with a non-empty step list, a successful `run`
resolves the declared steps strictly in order: there is a list `outs` of
resolved outputs (one per step) and a chain `ws` of intermediate worlds such
that step `i` is invoked on exactly the ordered outputs of steps `0..i-1`
(`outs.take i`) and resolves, via `resolveOne`, to `outs[i]`; the value
returned by `run` is exactly the resolved output of the last declared step,
earlier outputs appearing only as inputs of later steps. -/
theorem c1_run_executes_in_order {α : Type} (rb : RequestBuilder α)
    (allowCache : Bool) (J : Serializer α) (w : World) (r : Option α) (w' : World)
    (hne : rb.items.toList ≠ [])
    (hrun : rb.run allowCache J w = (.ok r, w')) :
    ∃ (outs : List (Option α)) (ws : List World),
      outs.length = rb.items.toList.length ∧ ws.length = outs.length + 1 ∧
      ws.getD 0 emptyWorld = w ∧ ws.getD outs.length emptyWorld = w' ∧
      (∀ i, i < outs.length →
        resolveOne ((rb.items.toList.getD i (defStep α)) (outs.take i)) allowCache J
            (ws.getD i emptyWorld) =
          (.ok (outs.getD i none), ws.getD (i + 1) emptyWorld)) ∧
      outs ≠ [] ∧ r = outs.getLastD none := by
  cases rb with
  | mk k sh items ac =>
    simp only [RequestBuilder.items] at hne ⊢
    simp only [RequestBuilder.run] at hrun
    rcases hri : runItems items allowCache J [] w with ⟨ri, wi⟩
    rw [hri] at hrun
    cases ri with
    | error e => simp at hrun
    | ok vs =>
      simp only [Prod.mk.injEq, Except.ok.injEq] at hrun
      obtain ⟨hr, hw⟩ := hrun
      obtain ⟨outs, ws, hres, hlen, hwslen, hws0, hwsl, hidx⟩ :=
        runItemsShape items allowCache J [] w vs wi hri
      rw [hw] at hwsl
      simp only [List.nil_append] at hres
      subst hres
      refine ⟨vs, ws, hlen, hwslen, hws0, hwsl, ?_, ?_, hr.symm⟩
      · intro i hi
        simpa using hidx i hi
      · intro hnil
        rw [hnil] at hlen
        exact hne (List.length_eq_zero.mp hlen.symm)

theorem c1_witness :
    rbPure.run true natJson wPure = (.ok (some 3), wPure) ∧
    (∃ (outs : List (Option Nat)) (ws : List World),
      outs.length = rbPure.items.toList.length ∧ ws.length = outs.length + 1 ∧
      ws.getD 0 emptyWorld = wPure ∧ ws.getD outs.length emptyWorld = wPure ∧
      (∀ i, i < outs.length →
        resolveOne ((rbPure.items.toList.getD i (defStep Nat)) (outs.take i)) true natJson
            (ws.getD i emptyWorld) =
          (.ok (outs.getD i none), ws.getD (i + 1) emptyWorld)) ∧
      outs ≠ [] ∧ some 3 = outs.getLastD none) :=
  ⟨rfl,
    c1_run_executes_in_order rbPure true natJson wPure (some 3) wPure
      (by simp [rbPure, RequestBuilder.items, Items.toList]) rfl⟩

/-- C5: when a step of an outer pipeline returns a nested pipeline, `run`
resolves it by recursively running it with the effective cache flag
`allowCache || nestedPipeline.alwaysCache` and appends its result; in
particular a nested pipeline marked `alwaysCache = true`, embedded in an
outer `run(allowCache = false)` call, still resolves its fetch from the cache
when a valid entry is present (returning the cached value with the world
untouched: no network call, no write). -/
theorem c5_nested_run_effective_flag {α : Type} :
    (∀ (f : List (Option α) → StepRes α) (rest : Items α) (rb : RequestBuilder α)
        (values : List (Option α)) (allowCache : Bool) (J : Serializer α) (w : World),
      f values = .nested rb →
      runItems (.cons f rest) allowCache J values w =
        (match rb.run (allowCache || rb.alwaysCache) J w with
         | (.ok v, w1) => runItems rest allowCache J (values ++ [v]) w1
         | (.error e, w1) => (.error e, w1))) ∧
    (∀ (k1 s1 k2 s2 : String) (rc : RequestCache α) (J : Serializer α) (w : World)
        (s : String) (v : α),
      w.store rc.requestKey = some s → s ≠ "" → J.fromJson s = some v →
      (RequestBuilder.mk k1 s1
          (.cons (fun _ => .nested
            (RequestBuilder.mk k2 s2 (.cons (fun _ => .fetch rc) .nil) true)) .nil)
          false).run false J w = (.ok (some v), w)) := by
  constructor
  · intro f rest rb values allowCache J w hf
    simp only [runItems]
    rw [hf]
    simp only [resolveOne]
  · intro k1 s1 k2 s2 rc J w s v hs hne hv
    simp [RequestBuilder.run, runItems, resolveOne, RequestBuilder.alwaysCache,
      RequestCache.get, RequestCache.cache, hs, hne, hv]

theorem c5_witness :
    (runItems (.cons (fun _ => .nested rbInner) .nil) false natJson [] wCached9 =
      (match rbInner.run (false || rbInner.alwaysCache) natJson wCached9 with
       | (.ok v, w1) => runItems .nil false natJson ([] ++ [v]) w1
       | (.error e, w1) => (.error e, w1))) ∧
    rbOuter.run false natJson wCached9 = (.ok (some 9), wCached9) :=
  ⟨c5_nested_run_effective_flag.1 (fun _ => .nested rbInner) .nil rbInner [] false natJson
      wCached9 rfl,
    c5_nested_run_effective_flag.2 "a" "b" "a" "b" rcParser1 natJson wCached9 "9" 9
      rfl (by decide) rfl⟩

theorem get_storePres {α : Type} (rc : RequestCache α) (J : Serializer α) (w : World)
    (r : Except Err α) (w' : World) (h : rc.get J w = (r, w')) : StorePres J w w' := by
  unfold RequestCache.get at h
  cases hc : rc.cache J w with
  | ok u =>
    rw [hc] at h
    injection h with h1 h2
    subst h2
    exact fun k s hk _ => hk
  | error e =>
    rw [hc] at h
    simp only [RequestCache.live] at h
    cases hn : w.net rc.url with
    | error msg =>
      rw [hn] at h
      simp only at h
      injection h with h1 h2
      subst h2
      exact fun k s hk _ => hk
    | ok grid =>
      rw [hn] at h
      simp only at h
      cases hp : rc.parse grid with
      | error pe =>
        rw [hp] at h
        simp only at h
        injection h with h1 h2
        subst h2
        exact fun k s hk _ => hk
      | ok v =>
        rw [hp] at h
        simp only at h
        injection h with h1 h2
        subst h2
        intro k s hk hg
        by_cases hkey : k = rc.requestKey
        · exfalso
          obtain ⟨hne, hsome⟩ := hg
          obtain ⟨v2, hv2⟩ := Option.isSome_iff_exists.mp hsome
          rw [hkey] at hk
          have hok : rc.cache J w = .ok v2 := by
            simp [RequestCache.cache, hk, hne, hv2]
          rw [hok] at hc
          exact Except.noConfusion hc
        · simp [RequestCache.saveCache, hkey]
          exact hk

mutual
theorem run_storePres {α : Type} (rb : RequestBuilder α) (J : Serializer α) (w : World) :
    ∀ res w', rb.run true J w = (res, w') → StorePres J w w' := by
  match rb with
  | .mk k sh items ac =>
    intro res w' h
    simp only [RequestBuilder.run] at h
    rcases hri : runItems items true J [] w with ⟨ri, wi⟩
    rw [hri] at h
    have hp := runItems_storePres items J [] w ri wi hri
    cases ri with
    | ok vs =>
      simp only at h
      injection h with h1 h2
      subst h2
      exact hp
    | error e =>
      simp only at h
      injection h with h1 h2
      subst h2
      exact hp

theorem runItems_storePres {α : Type} (items : Items α) (J : Serializer α)
    (values : List (Option α)) (w : World) :
    ∀ res w', runItems items true J values w = (res, w') → StorePres J w w' := by
  match items with
  | .nil =>
    intro res w' h
    simp only [runItems] at h
    injection h with h1 h2
    subst h2
    exact fun k s hk _ => hk
  | .cons f rest =>
    intro res w' h
    simp only [runItems] at h
    rcases hr0 : resolveOne (f values) true J w with ⟨r0, w1⟩
    rw [hr0] at h
    have hp1 := resolveOne_storePres (f values) J w r0 w1 hr0
    cases r0 with
    | ok v =>
      simp only at h
      have hp2 := runItems_storePres rest J (values ++ [v]) w1 res w' h
      exact fun k s hk hg => hp2 k s (hp1 k s hk hg) hg
    | error e =>
      simp only at h
      injection h with h1 h2
      subst h2
      exact hp1

theorem resolveOne_storePres {α : Type} (sr : StepRes α) (J : Serializer α) (w : World) :
    ∀ res w', resolveOne sr true J w = (res, w') → StorePres J w w' := by
  match sr with
  | .plain v =>
    intro res w' h
    simp only [resolveOne] at h
    injection h with h1 h2
    subst h2
    exact fun k s hk _ => hk
  | .fetch rc =>
    intro res w' h
    simp only [resolveOne, if_pos] at h
    rcases hg : rc.get J w with ⟨rg, wg⟩
    rw [hg] at h
    have hpres := get_storePres rc J w rg wg hg
    cases rg with
    | ok v =>
      simp only at h
      injection h with h1 h2
      subst h2
      exact hpres
    | error e =>
      simp only at h
      injection h with h1 h2
      subst h2
      exact hpres
  | .nested rb =>
    intro res w' h
    simp only [resolveOne, Bool.true_or] at h
    exact run_storePres rb J w res w' h
end

theorem get_rerun {α : Type} (rc : RequestCache α) (J : Serializer α)
    (hJ : ∀ a : α, J.fromJson (J.toJson a) = some a ∧ J.toJson a ≠ "")
    (w : World) (v : α) (w1 : World) (h : rc.get J w = (.ok v, w1)) :
    ∀ w2, StorePres J w1 w2 → rc.get J w2 = (.ok v, w2) := by
  intro w2 hpres
  unfold RequestCache.get at h
  cases hc : rc.cache J w with
  | ok u =>
    rw [hc] at h
    simp only at h
    injection h with h1 h2
    injection h1 with h1
    cases hk : w.store rc.requestKey with
    | none =>
      simp only [RequestCache.cache, hk] at hc
      exact absurd hc (by simp)
    | some s =>
      simp only [RequestCache.cache, hk] at hc
      by_cases hs : s = ""
      · rw [if_pos hs] at hc
        exact absurd hc (by simp)
      · rw [if_neg hs] at hc
        cases hv : J.fromJson s with
        | none =>
          rw [hv] at hc
          exact absurd hc (by simp)
        | some u2 =>
          rw [hv] at hc
          injection hc with hc
          have hgood : GoodStr J s := ⟨hs, by rw [hv]; rfl⟩
          have hk1 : w1.store rc.requestKey = some s := by
            rw [← h2]; exact hk
          have hk2 : w2.store rc.requestKey = some s := hpres rc.requestKey s hk1 hgood
          have hc2 : rc.cache J w2 = .ok v := by
            simp [RequestCache.cache, hk2, hs, hv, hc, h1]
          simp [RequestCache.get, hc2]
  | error e =>
    rw [hc] at h
    simp only [RequestCache.live] at h
    cases hn : w.net rc.url with
    | error msg =>
      rw [hn] at h
      simp only at h
      exact absurd h (by simp)
    | ok grid =>
      rw [hn] at h
      simp only at h
      cases hp : rc.parse grid with
      | error pe =>
        rw [hp] at h
        simp only at h
        exact absurd h (by simp)
      | ok u =>
        rw [hp] at h
        simp only at h
        injection h with h1 h2
        injection h1 with h1
        subst h1
        have hk1 : w1.store rc.requestKey = some (J.toJson u) := by
          rw [← h2]
          simp [RequestCache.saveCache]
        have hgood : GoodStr J (J.toJson u) := ⟨(hJ u).2, by rw [(hJ u).1]; rfl⟩
        have hk2 : w2.store rc.requestKey = some (J.toJson u) :=
          hpres rc.requestKey (J.toJson u) hk1 hgood
        have hc2 : rc.cache J w2 = .ok u := by
          simp [RequestCache.cache, hk2, (hJ u).2, (hJ u).1]
        simp [RequestCache.get, hc2]

mutual
theorem run_rerun {α : Type} (rb : RequestBuilder α) (J : Serializer α)
    (hJ : ∀ a : α, J.fromJson (J.toJson a) = some a ∧ J.toJson a ≠ "") (w : World) :
    ∀ r w1, rb.run true J w = (.ok r, w1) →
      ∀ w2, StorePres J w1 w2 → rb.run true J w2 = (.ok r, w2) := by
  match rb with
  | .mk k sh items ac =>
    intro r w1 h w2 hpres
    simp only [RequestBuilder.run] at h ⊢
    rcases hri : runItems items true J [] w with ⟨ri, wi⟩
    rw [hri] at h
    cases ri with
    | error e => simp only at h; exact absurd h (by simp)
    | ok vs =>
      simp only at h
      injection h with h1 h2
      injection h1 with h1
      subst h2
      have h3 := runItems_rerun items J hJ [] w vs wi hri w2 hpres
      rw [h3]
      simp only
      rw [h1]

theorem runItems_rerun {α : Type} (items : Items α) (J : Serializer α)
    (hJ : ∀ a : α, J.fromJson (J.toJson a) = some a ∧ J.toJson a ≠ "")
    (values : List (Option α)) (w : World) :
    ∀ vs w1, runItems items true J values w = (.ok vs, w1) →
      ∀ w2, StorePres J w1 w2 → runItems items true J values w2 = (.ok vs, w2) := by
  match items with
  | .nil =>
    intro vs w1 h w2 hpres
    simp only [runItems] at h ⊢
    injection h with h1 h2
    injection h1 with h1
    simp [h1]
  | .cons f rest =>
    intro vs w1 h w2 hpres
    simp only [runItems] at h ⊢
    rcases hr0 : resolveOne (f values) true J w with ⟨r0, wa⟩
    rw [hr0] at h
    cases r0 with
    | error e => simp only at h; exact absurd h (by simp)
    | ok v =>
      simp only at h
      have hprest := runItems_storePres rest J (values ++ [v]) wa (.ok vs) w1 h
      have hpresa : StorePres J wa w2 :=
        fun k s hk hg => hpres k s (hprest k s hk hg) hg
      have hra := resolveOne_rerun (f values) J hJ w v wa hr0 w2 hpresa
      rw [hra]
      simp only
      exact runItems_rerun rest J hJ (values ++ [v]) wa vs w1 h w2 hpres

theorem resolveOne_rerun {α : Type} (sr : StepRes α) (J : Serializer α)
    (hJ : ∀ a : α, J.fromJson (J.toJson a) = some a ∧ J.toJson a ≠ "") (w : World) :
    ∀ v w1, resolveOne sr true J w = (.ok v, w1) →
      ∀ w2, StorePres J w1 w2 → resolveOne sr true J w2 = (.ok v, w2) := by
  match sr with
  | .plain u =>
    intro v w1 h w2 hpres
    simp only [resolveOne] at h ⊢
    injection h with h1 h2
    injection h1 with h1
    simp [h1]
  | .fetch rc =>
    intro v w1 h w2 hpres
    simp only [resolveOne, if_pos] at h ⊢
    rcases hg : rc.get J w with ⟨rg, wg⟩
    rw [hg] at h
    cases rg with
    | error e => simp only at h; exact absurd h (by simp)
    | ok u =>
      simp only at h
      injection h with h1 h2
      injection h1 with h1
      subst h2
      have hgw2 := get_rerun rc J hJ w u wg hg w2 hpres
      rw [hgw2]
      simp [h1]
  | .nested rb =>
    intro v w1 h w2 hpres
    simp only [resolveOne, Bool.true_or] at h ⊢
    exact run_rerun rb J hJ w v w1 h w2 hpres
end

/-- C2: for every pipeline (whose steps, being Lean functions of the prior
outputs, are deterministic) and every serializer satisfying the JSON
round-trip law, if `run(allowCache = true)` succeeds from world `w` producing
`r` and final world `w'`, then running again from `w'` (no intervening change
to backend data or cache) yields the identical output `r` and leaves the
world untouched — in particular the second call performs zero network
operations. -/
theorem c2_run_idempotent_with_cache {α : Type} (J : Serializer α)
    (hJ : ∀ a : α, J.fromJson (J.toJson a) = some a ∧ J.toJson a ≠ "")
    (rb : RequestBuilder α) (w w' : World) (r : Option α)
    (hrun : rb.run true J w = (.ok r, w')) :
    rb.run true J w' = (.ok r, w') ∧ (rb.run true J w').2.netOps = w'.netOps := by
  have h := run_rerun rb J hJ w r w' hrun w' (fun k s hk _ => hk)
  exact ⟨h, by rw [h]⟩

theorem c2_witness :
    rbBoolFetch.run true boolJson wBoolAfter = (.ok (some true), wBoolAfter) ∧
    (rbBoolFetch.run true boolJson wBoolAfter).2.netOps = wBoolAfter.netOps :=
  c2_run_idempotent_with_cache boolJson (by decide) rbBoolFetch wNetOk wBoolAfter (some true) rfl
theorem hexVal_hexDigit : ∀ m, m < 16 → hexVal (hexDigit m) = m := by decide

theorem encByteVal (b : Nat) (hb : b < 256) :
    16 * hexVal (hexDigit (b / 16)) + hexVal (hexDigit (b % 16)) = b := by
  rw [hexVal_hexDigit _ (by omega), hexVal_hexDigit _ (by omega)]
  omega

theorem decOne_one (b : Nat) (hb : b < 128) (tail : List Char) :
    decOne (encByte b ++ tail) = some (b, tail) := by
  simp only [encByte, List.cons_append, List.nil_append, decOne]
  rw [encByteVal b (by omega)]
  simp [hb]

theorem decOne_two (b1 b2 : Nat) (h1a : 192 ≤ b1) (h1b : b1 < 224) (hb2 : b2 < 256)
    (tail : List Char) :
    decOne (encByte b1 ++ (encByte b2 ++ tail)) =
      some ((b1 - 192) * 64 + (b2 - 128), tail) := by
  simp only [encByte, List.cons_append, List.nil_append, decOne]
  rw [encByteVal b1 (by omega), encByteVal b2 (by omega)]
  have hn1 : ¬ (b1 < 128) := by omega
  simp [hn1, h1b]

theorem decOne_three (b1 b2 b3 : Nat) (h1a : 224 ≤ b1) (h1b : b1 < 240) (hb2 : b2 < 256)
    (hb3 : b3 < 256) (tail : List Char) :
    decOne (encByte b1 ++ (encByte b2 ++ (encByte b3 ++ tail))) =
      some ((b1 - 224) * 4096 + (b2 - 128) * 64 + (b3 - 128), tail) := by
  simp only [encByte, List.cons_append, List.nil_append, decOne]
  rw [encByteVal b1 (by omega), encByteVal b2 (by omega), encByteVal b3 (by omega)]
  have hn1 : ¬ (b1 < 128) := by omega
  have hn2 : ¬ (b1 < 224) := by omega
  simp [hn1, hn2, h1b]

theorem decOne_four (b1 b2 b3 b4 : Nat) (h1a : 240 ≤ b1) (h1b : b1 < 256) (hb2 : b2 < 256)
    (hb3 : b3 < 256) (hb4 : b4 < 256) (tail : List Char) :
    decOne (encByte b1 ++ (encByte b2 ++ (encByte b3 ++ (encByte b4 ++ tail)))) =
      some ((b1 - 240) * 262144 + (b2 - 128) * 4096 + (b3 - 128) * 64 + (b4 - 128), tail) := by
  simp only [encByte, List.cons_append, List.nil_append, decOne]
  rw [encByteVal b1 (by omega), encByteVal b2 (by omega), encByteVal b3 (by omega),
    encByteVal b4 (by omega)]
  have hn1 : ¬ (b1 < 128) := by omega
  have hn2 : ¬ (b1 < 224) := by omega
  have hn3 : ¬ (b1 < 240) := by omega
  simp [hn1, hn2, hn3]

theorem unreserved_ne_percent (c : Char) (h : isUnreservedChar c = true) : ¬ (c = '%') := by
  intro hc
  subst hc
  exact absurd h (by decide)

theorem char_toNat_lt (c : Char) : c.toNat < 1114112 := by
  have h := c.valid
  unfold UInt32.isValidChar at h
  unfold Nat.isValidChar at h
  have he : c.toNat = c.val.toNat := rfl
  rcases h with h | ⟨ha, hb⟩ <;> omega

theorem decOne_encChar (c : Char) (rest : List Char) :
    decOne (encChar c ++ rest) = some (c.toNat, rest) := by
  by_cases hu : isUnreservedChar c
  · have hne : ¬ (c = '%') := unreserved_ne_percent c hu
    simp only [encChar, if_pos hu, List.cons_append, List.nil_append]
    simp [decOne, hne]
  · simp only [encChar, if_neg hu]
    have hlt : c.toNat < 1114112 := char_toNat_lt c
    by_cases h1 : c.toNat < 128
    · simp only [utf8Bytes, if_pos h1, List.flatMap_cons, List.flatMap_nil, List.append_nil]
      exact decOne_one c.toNat h1 rest
    · by_cases h2 : c.toNat < 2048
      · simp only [utf8Bytes, if_neg h1, if_pos h2, List.flatMap_cons, List.flatMap_nil,
          List.append_nil, List.append_assoc]
        rw [decOne_two (192 + c.toNat / 64) (128 + c.toNat % 64) (by omega) (by omega)
          (by omega) rest]
        simp only [Option.some.injEq, Prod.mk.injEq]
        exact ⟨by omega, trivial⟩
      · by_cases h3 : c.toNat < 65536
        · simp only [utf8Bytes, if_neg h1, if_neg h2, if_pos h3, List.flatMap_cons,
            List.flatMap_nil, List.append_nil, List.append_assoc]
          rw [decOne_three (224 + c.toNat / 4096) (128 + c.toNat / 64 % 64) (128 + c.toNat % 64)
            (by omega) (by omega) (by omega) (by omega) rest]
          simp only [Option.some.injEq, Prod.mk.injEq]
          exact ⟨by omega, trivial⟩
        · simp only [utf8Bytes, if_neg h1, if_neg h2, if_neg h3, List.flatMap_cons,
            List.flatMap_nil, List.append_nil, List.append_assoc]
          rw [decOne_four (240 + c.toNat / 262144) (128 + c.toNat / 4096 % 64)
            (128 + c.toNat / 64 % 64) (128 + c.toNat % 64)
            (by omega) (by omega) (by omega) (by omega) (by omega) rest]
          simp only [Option.some.injEq, Prod.mk.injEq]
          exact ⟨by omega, trivial⟩

theorem encFlat_inj : ∀ l1 l2 : List Char, l1.flatMap encChar = l2.flatMap encChar → l1 = l2 := by
  intro l1
  induction l1 with
  | nil =>
    intro l2 h
    cases l2 with
    | nil => rfl
    | cons b t2 =>
      simp only [List.flatMap_nil, List.flatMap_cons] at h
      have h2 := congrArg decOne h
      rw [decOne_encChar] at h2
      simp [decOne] at h2
  | cons a t ih =>
    intro l2 h
    cases l2 with
    | nil =>
      simp only [List.flatMap_cons, List.flatMap_nil] at h
      have h2 := congrArg decOne h
      rw [decOne_encChar] at h2
      simp [decOne] at h2
    | cons b t2 =>
      simp only [List.flatMap_cons] at h
      have h2 := congrArg decOne h
      rw [decOne_encChar, decOne_encChar] at h2
      simp only [Option.some.injEq, Prod.mk.injEq] at h2
      obtain ⟨hab, htail⟩ := h2
      have hab2 : a = b := Char.ext (UInt32.ext hab)
      rw [hab2, ih t2 htail]

theorem encodeURIComponent_injective : Function.Injective encodeURIComponent := by
  intro s1 s2 h
  apply String.ext
  have h2 : s1.data.flatMap encChar = s2.data.flatMap encChar := congrArg String.data h
  exact encFlat_inj s1.data s2.data h2

theorem build_inj_apiKey (k1 k2 s r : String) (d : Dimension) (f : Bool)
    (h : RequestCache.build k1 s r d f = RequestCache.build k2 s r d f) : k1 = k2 := by
  apply String.ext
  have h2 := congrArg String.data h
  simp only [RequestCache.build, String.data_append, List.append_assoc] at h2
  replace h2 := List.append_cancel_left h2
  replace h2 := List.append_cancel_left h2
  replace h2 := List.append_cancel_left h2
  replace h2 := List.append_cancel_left h2
  replace h2 := List.append_cancel_left h2
  replace h2 := List.append_cancel_left h2
  replace h2 := List.append_cancel_left h2
  replace h2 := List.append_cancel_left h2
  replace h2 := List.append_cancel_left h2
  exact h2

theorem build_inj_sheetId (k s1 s2 r : String) (d : Dimension) (f : Bool)
    (h : RequestCache.build k s1 r d f = RequestCache.build k s2 r d f) : s1 = s2 := by
  apply String.ext
  have h2 := congrArg String.data h
  simp only [RequestCache.build, String.data_append, List.append_assoc] at h2
  replace h2 := List.append_cancel_left h2
  exact List.append_cancel_right h2

theorem build_inj_range (k s r1 r2 : String) (d : Dimension) (f : Bool)
    (h : RequestCache.build k s r1 d f = RequestCache.build k s r2 d f) : r1 = r2 := by
  have h2 := congrArg String.data h
  simp only [RequestCache.build, String.data_append, List.append_assoc] at h2
  replace h2 := List.append_cancel_left h2
  replace h2 := List.append_cancel_left h2
  replace h2 := List.append_cancel_left h2
  replace h2 := List.append_cancel_right h2
  exact encodeURIComponent_injective (String.ext h2)

theorem build_inj_dimension (k s r : String) (d1 d2 : Dimension) (f : Bool)
    (h : RequestCache.build k s r d1 f = RequestCache.build k s r d2 f) : d1 = d2 := by
  cases d1 <;> cases d2 <;> first
    | rfl
    | (exfalso
       have h2 := congrArg String.data h
       simp only [RequestCache.build, Dimension.toUrl, String.data_append,
         List.append_assoc] at h2
       replace h2 := List.append_cancel_left h2
       replace h2 := List.append_cancel_left h2
       replace h2 := List.append_cancel_left h2
       replace h2 := List.append_cancel_left h2
       replace h2 := List.append_cancel_left h2
       replace h2 := List.append_cancel_right h2
       exact absurd h2 (by decide))

theorem build_inj_formatted (k s r : String) (d : Dimension) (f1 f2 : Bool)
    (h : RequestCache.build k s r d f1 = RequestCache.build k s r d f2) : f1 = f2 := by
  cases f1 <;> cases f2 <;> first
    | rfl
    | (exfalso
       have h2 := congrArg String.data h
       simp only [RequestCache.build, Bool.false_eq_true, if_false, if_true,
         String.data_append, List.append_assoc] at h2
       replace h2 := List.append_cancel_left h2
       replace h2 := List.append_cancel_left h2
       replace h2 := List.append_cancel_left h2
       replace h2 := List.append_cancel_left h2
       replace h2 := List.append_cancel_left h2
       replace h2 := List.append_cancel_left h2
       replace h2 := List.append_cancel_left h2
       replace h2 := List.append_cancel_right h2
       exact absurd h2 (by decide))

/-- C8: a Cacheable Fetch's key is computed at construction as the hash of
the fully built request URL — a pure, deterministic function of the resolved
parameters that is stable for the object's lifetime (so identical parameters
always give identical keys); and, the external `md5` hash being injective on
the URLs in play (the collision-resistance the design relies on), two
instances differing in exactly one of the parameters (credential, dataset id,
range, orientation, format flag) have different cache keys, because the built
URLs already differ. -/
theorem c8_cache_key_determinism (hash : String → String)
    (hinj : Function.Injective hash) (α : Type)
    (k1 k2 s1 s2 r1 r2 : String) (d1 d2 : Dimension) (f1 f2 : Bool) :
    (mkRequestCache α hash k1 s1 r1 d1 f1).requestKey =
        hash (RequestCache.build k1 s1 r1 d1 f1) ∧
    (k1 ≠ k2 → (mkRequestCache α hash k1 s1 r1 d1 f1).requestKey ≠
        (mkRequestCache α hash k2 s1 r1 d1 f1).requestKey) ∧
    (s1 ≠ s2 → (mkRequestCache α hash k1 s1 r1 d1 f1).requestKey ≠
        (mkRequestCache α hash k1 s2 r1 d1 f1).requestKey) ∧
    (r1 ≠ r2 → (mkRequestCache α hash k1 s1 r1 d1 f1).requestKey ≠
        (mkRequestCache α hash k1 s1 r2 d1 f1).requestKey) ∧
    (d1 ≠ d2 → (mkRequestCache α hash k1 s1 r1 d1 f1).requestKey ≠
        (mkRequestCache α hash k1 s1 r1 d2 f1).requestKey) ∧
    (f1 ≠ f2 → (mkRequestCache α hash k1 s1 r1 d1 f1).requestKey ≠
        (mkRequestCache α hash k1 s1 r1 d1 f2).requestKey) := by
  refine ⟨rfl, ?_, ?_, ?_, ?_, ?_⟩
  · intro hne hkey
    exact hne (build_inj_apiKey k1 k2 s1 r1 d1 f1 (hinj hkey))
  · intro hne hkey
    exact hne (build_inj_sheetId k1 s1 s2 r1 d1 f1 (hinj hkey))
  · intro hne hkey
    exact hne (build_inj_range k1 s1 r1 r2 d1 f1 (hinj hkey))
  · intro hne hkey
    exact hne (build_inj_dimension k1 s1 r1 d1 d2 f1 (hinj hkey))
  · intro hne hkey
    exact hne (build_inj_formatted k1 s1 r1 d1 f1 f2 (hinj hkey))

theorem c8_witness :
    ((mkRequestCache Nat (fun x => x) "k" "s" "r" .rows true).requestKey =
      RequestCache.build "k" "s" "r" .rows true) ∧
    (mkRequestCache Nat (fun x => x) "ka" "s" "r" .rows true).requestKey ≠
      (mkRequestCache Nat (fun x => x) "kb" "s" "r" .rows true).requestKey ∧
    (mkRequestCache Nat (fun x => x) "k" "sa" "r" .rows true).requestKey ≠
      (mkRequestCache Nat (fun x => x) "k" "sb" "r" .rows true).requestKey ∧
    (mkRequestCache Nat (fun x => x) "k" "s" "ra" .rows true).requestKey ≠
      (mkRequestCache Nat (fun x => x) "k" "s" "rb" .rows true).requestKey ∧
    (mkRequestCache Nat (fun x => x) "k" "s" "r" .rows true).requestKey ≠
      (mkRequestCache Nat (fun x => x) "k" "s" "r" .columns true).requestKey ∧
    (mkRequestCache Nat (fun x => x) "k" "s" "r" .rows true).requestKey ≠
      (mkRequestCache Nat (fun x => x) "k" "s" "r" .rows false).requestKey :=
  ⟨(c8_cache_key_determinism (fun x => x) (fun a b hx => hx) Nat
      "k" "k" "s" "s" "r" "r" .rows .rows true true).1,
    (c8_cache_key_determinism (fun x => x) (fun a b hx => hx) Nat
      "ka" "kb" "s" "s" "r" "r" .rows .rows true true).2.1 (by decide),
    (c8_cache_key_determinism (fun x => x) (fun a b hx => hx) Nat
      "k" "k" "sa" "sb" "r" "r" .rows .rows true true).2.2.1 (by decide),
    (c8_cache_key_determinism (fun x => x) (fun a b hx => hx) Nat
      "k" "k" "s" "s" "ra" "rb" .rows .rows true true).2.2.2.1 (by decide),
    (c8_cache_key_determinism (fun x => x) (fun a b hx => hx) Nat
      "k" "k" "s" "s" "r" "r" .rows .columns true true).2.2.2.2.1 (by decide),
    (c8_cache_key_determinism (fun x => x) (fun a b hx => hx) Nat
      "k" "k" "s" "s" "r" "r" .rows .rows true false).2.2.2.2.2 (by decide)⟩
